import Mathlib

/-!
# Verification of the LogPot transport delivery engine

Shallow embedding, in Lean 4, of the parts of the LogPot structured-logging
library that the claims of the specification are about:

* `withRetry` — retry with backoff (src/packages/utils/src/withRetry.ts)
* `AsyncJobQueue` — bounded-concurrency job queue
  (src/packages/utils/src/asyncJobQueue.ts)
* `FileRotator` — rotation mutual exclusion, the rotation try/finally and
  retention pruning (transports/fileRotator.ts)
* `Transport` — the `log`/`raw` accounting, the close-time stats check and
  the worker handshake (transports/transport.ts)

JavaScript strings are modelled as `List Char`; machine numbers that can be
negative are modelled as `Int`, counters as `Nat`.  Asynchronous control flow
is modelled by explicit state passing: each cooperative-scheduling atomic
segment of the source becomes one step of a step function, and schedulers
(interleavings) are quantified over as lists of moves.
-/

namespace LogPot

/-! ## withRetry (src/packages/utils/src/withRetry.ts)

`withRetry(operation, opt, onError, retryErrorCodes)` runs `operation` up to
`maxRetry` times.  We model one error value thrown by an attempt as an `Err`:
its optional `code` property plus a tag so that distinct error values can be
told apart.  Abort errors (per-attempt timeouts) are outside the claims
settled here and are not produced by the modelled operations. -/

/-- A thrown error as seen by the retry filter of `withRetry`: the optional
`code` property (`none` models an absent field) and a tag distinguishing
distinct error values. -/
structure Err where
  code : Option String
  tag : Nat
deriving DecidableEq, Repr

/-- Outcome of one invocation of the wrapped operation: it either returns a
value or throws an error. -/
inductive AttemptOutcome (α : Type) where
  | ok (v : α)
  | fail (e : Err)
deriving DecidableEq, Repr

/-- Result of `withRetry` together with the number of invocations of the
operation that were made: either the value from the operation, or the wrapping
`Operation failed after n attempts` error carrying the reported attempt
count and, as `cause`, the last underlying error. -/
inductive RetryResult (α : Type) where
  | ok (v : α) (calls : Nat)
  | failed (reportedAttempts : Nat) (cause : Option Err) (calls : Nat)
deriving DecidableEq, Repr

/-- JavaScript truthiness of the `code` property read by
`const code = (err as { code?: string }).code; if (!code) break`:
an absent field or the empty string is falsy. -/
def codeFalsy : Option String → Bool
  | none => true
  | some s => s == ""

/-- The `for (; attempt <= maxRetry; attempt++)` loop of `withRetry`.
`remaining` is structural fuel equal to `maxRetry + 1 - attempt`, so
`remaining = 0` is exactly the loop exit `attempt > maxRetry`.
`op n` is the outcome of the n-th invocation (1-based), `codes` models the
optional `retryErrorCodes` argument, `stop n e` models `onError` returning
`RetryAction.STOP` on attempt `n`, `last` is `lastError` and `calls` counts
invocations of the operation made so far.  The backoff delay between
attempts has no effect on the result and is not represented. -/
def retryLoop {α : Type} (op : Nat → AttemptOutcome α) (codes : Option (List String))
    (stop : Nat → Err → Bool) (maxRetry : Nat) :
    Nat → Nat → Option Err → Nat → RetryResult α
  | 0, _, last, calls => .failed maxRetry last calls
  | remaining + 1, attempt, _, calls =>
    match op attempt with
    | .ok v => .ok v (calls + 1)
    | .fail e =>
      let brk : Bool :=
        (match codes with
         | some cs =>
           !cs.isEmpty && (codeFalsy e.code || !(cs.contains (e.code.getD "")))
         | none => false)
        || stop attempt e
      if brk then .failed (min attempt maxRetry) (some e) (calls + 1)
      else retryLoop op codes stop maxRetry remaining (attempt + 1) (some e) (calls + 1)

/-- Coercion `if (reqOpt.maxRetry == null || reqOpt.maxRetry < 1) reqOpt.maxRetry = 1`:
a `maxRetry` below 1 is coerced to 1 (the option defaults to 3 when the
whole field is absent; claims pass it explicitly). -/
def effectiveMaxRetry (maxRetry : Int) : Nat :=
  if maxRetry < 1 then 1 else maxRetry.toNat

/-- Top level of `withRetry`: run the loop from attempt 1 with no last error and no
invocations made yet. -/
def withRetry {α : Type} (op : Nat → AttemptOutcome α) (maxRetry : Int)
    (stop : Nat → Err → Bool) (codes : Option (List String)) : RetryResult α :=
  let m := effectiveMaxRetry maxRetry
  retryLoop op codes stop m m 1 none 0

theorem effectiveMaxRetry_pos (maxRetry : Int) : 1 ≤ effectiveMaxRetry maxRetry := by
  unfold effectiveMaxRetry
  split
  · exact le_refl 1
  · rename_i h
    omega

/-- If attempts `a, a+1, …` keep failing until the `(N+1)`-st invocation
succeeds, and the budget covers attempt `N+1`, the loop returns the success
value after invoking the operation once per remaining attempt. -/
theorem retryLoop_reaches_success {α : Type} (op : Nat → AttemptOutcome α)
    (maxRetry N : Nat) (v : α) (e : Nat → Err)
    (hfail : ∀ i, 1 ≤ i → i ≤ N → op i = .fail (e i))
    (hsucc : op (N + 1) = .ok v)
    (hbudget : N + 1 ≤ maxRetry) :
    ∀ remaining attempt last calls,
      remaining = maxRetry + 1 - attempt →
      1 ≤ attempt → attempt ≤ N + 1 →
      retryLoop op none (fun _ _ => false) maxRetry remaining attempt last calls
        = .ok v (calls + (N + 2 - attempt)) := by
  intro remaining
  induction remaining with
  | zero =>
    intro attempt last calls hrem h1 h2
    omega
  | succ r ih =>
    intro attempt last calls hrem h1 h2
    by_cases hend : attempt = N + 1
    · subst hend
      unfold retryLoop
      rw [hsucc]
      have : N + 2 - (N + 1) = 1 := by omega
      rw [this]
    · have hlt : attempt ≤ N := by omega
      unfold retryLoop
      rw [hfail attempt h1 hlt]
      simp only [Bool.or_false, Bool.false_or, if_neg, Bool.false_eq_true,
        not_false_eq_true, reduceIte]
      rw [ih (attempt + 1) (some (e attempt)) (calls + 1) (by omega) (by omega) (by omega)]
      have harith : calls + 1 + (N + 2 - (attempt + 1)) = calls + (N + 2 - attempt) := by
        omega
      rw [harith]

/-- If every attempt up to the budget fails, the loop exhausts the budget and
reports the wrapping error with the last underlying error as cause, after
invoking the operation once per remaining attempt. -/
theorem retryLoop_exhausts {α : Type} (op : Nat → AttemptOutcome α)
    (maxRetry : Nat) (e : Nat → Err)
    (hfail : ∀ i, 1 ≤ i → i ≤ maxRetry → op i = .fail (e i))
    (hpos : 1 ≤ maxRetry) :
    ∀ remaining attempt last calls,
      remaining = maxRetry + 1 - attempt →
      1 ≤ attempt → attempt ≤ maxRetry →
      retryLoop op none (fun _ _ => false) maxRetry remaining attempt last calls
        = .failed maxRetry (some (e maxRetry)) (calls + (maxRetry + 1 - attempt)) := by
  intro remaining
  induction remaining with
  | zero =>
    intro attempt last calls hrem h1 h2
    omega
  | succ r ih =>
    intro attempt last calls hrem h1 h2
    unfold retryLoop
    rw [hfail attempt h1 h2]
    simp only [Bool.or_false, Bool.false_or, if_neg, Bool.false_eq_true,
      not_false_eq_true, reduceIte]
    by_cases hend : attempt = maxRetry
    · subst hend
      have hr : r = 0 := by omega
      subst hr
      unfold retryLoop
      have harith : attempt + 1 - attempt = 1 := by omega
      rw [harith]
    · rw [ih (attempt + 1) (some (e attempt)) (calls + 1) (by omega) (by omega) (by omega)]
      have harith : calls + 1 + (maxRetry + 1 - (attempt + 1))
          = calls + (maxRetry + 1 - attempt) := by omega
      rw [harith]

/-- C4: For every operation that fails exactly `N` times and then succeeds,
`withRetry` invokes it exactly `N+1` times and returns the success value when
the (coerced) `maxRetry` exceeds `N`; when it does not, `withRetry` invokes
the operation exactly `maxRetry` times and rejects with a new error whose
cause is the last underlying error; and a `maxRetry` below 1 behaves exactly
as `maxRetry = 1`. -/
theorem withRetry_invocation_counts {α : Type} (op : Nat → AttemptOutcome α)
    (N : Nat) (v : α) (e : Nat → Err)
    (hfail : ∀ i, 1 ≤ i → i ≤ N → op i = .fail (e i))
    (hsucc : op (N + 1) = .ok v)
    (maxRetry : Int) :
    (N < effectiveMaxRetry maxRetry →
      withRetry op maxRetry (fun _ _ => false) none = .ok v (N + 1))
    ∧ (effectiveMaxRetry maxRetry ≤ N →
      withRetry op maxRetry (fun _ _ => false) none
        = .failed (effectiveMaxRetry maxRetry)
            (some (e (effectiveMaxRetry maxRetry)))
            (effectiveMaxRetry maxRetry))
    ∧ (maxRetry < 1 →
      withRetry op maxRetry (fun _ _ => false) none
        = withRetry op 1 (fun _ _ => false) none) := by
  refine ⟨?_, ?_, ?_⟩
  · intro hgt
    unfold withRetry
    have h := retryLoop_reaches_success op (effectiveMaxRetry maxRetry) N v e hfail hsucc
      (by omega) (effectiveMaxRetry maxRetry) 1 none 0 (by omega)
      (le_refl 1) (by omega)
    rw [h]
    have harith : 0 + (N + 2 - 1) = N + 1 := by omega
    rw [harith]
  · intro hle
    unfold withRetry
    have hpos := effectiveMaxRetry_pos maxRetry
    have h := retryLoop_exhausts op (effectiveMaxRetry maxRetry) e
      (fun i h1 h2 => hfail i h1 (by omega)) hpos
      (effectiveMaxRetry maxRetry) 1 none 0 (by omega) (le_refl 1) hpos
    rw [h]
    have harith : 0 + (effectiveMaxRetry maxRetry + 1 - 1) = effectiveMaxRetry maxRetry := by
      omega
    rw [harith]
  · intro hlt
    unfold withRetry
    have h1 : effectiveMaxRetry maxRetry = 1 := by
      unfold effectiveMaxRetry
      rw [if_pos hlt]
    have h2 : effectiveMaxRetry 1 = 1 := by rfl
    rw [h1, h2]

/-- Witness for `withRetry_invocation_counts`: an operation failing twice then
succeeding, run with budgets 5 (returns the value after 3 invocations),
2 (fails after exactly 2 invocations with the 2nd error as cause) and
0 (behaves as budget 1). -/
theorem withRetry_invocation_counts_witness :
    (withRetry (fun i => if i ≤ 2 then .fail ⟨some "E", i⟩ else .ok 42) 5
        (fun _ _ => false) none = .ok 42 3)
    ∧ (withRetry (fun i => if i ≤ 2 then .fail ⟨some "E", i⟩ else .ok 42) 2
        (fun _ _ => false) none = .failed 2 (some ⟨some "E", 2⟩) 2)
    ∧ (withRetry (fun i => if i ≤ 2 then .fail ⟨some "E", i⟩ else .ok 42) 0
        (fun _ _ => false) none
      = withRetry (fun i => if i ≤ 2 then .fail ⟨some "E", i⟩ else .ok 42) 1
        (fun _ _ => false) none) := by
  have h := withRetry_invocation_counts
    (fun i => if i ≤ 2 then AttemptOutcome.fail ⟨some "E", i⟩ else .ok 42)
    2 42 (fun i => ⟨some "E", i⟩)
    (fun i h1 h2 => by simp [if_pos h2])
    (by simp)
  refine ⟨?_, ?_, ?_⟩
  · exact (h 5).1 (by decide)
  · exact (h 2).2.1 (by decide)
  · exact (h 0).2.2 (by decide)

/-- C8 counterexample: `retryableCodes` supplied as the empty array.  The
error code `X` of the first attempt is not in the (empty) list, so per the claim
no further attempt should be made (1 invocation); the code skips code
filtering entirely when the supplied list is empty (`retryErrorCodes.length >
0` guard) and retries to exhaustion: 2 invocations with `maxRetry = 2`. -/
theorem withRetry_emptyCodes_counterexample :
    ¬ (withRetry (fun i => .fail ⟨some "X", i⟩) 2 (fun _ _ => false) (some [])
        = RetryResult.failed (α := Nat) 1 (some ⟨some "X", 1⟩) 1)
    ∧ withRetry (fun i => .fail ⟨some "X", i⟩) 2 (fun _ _ => false) (some [])
        = RetryResult.failed (α := Nat) 2 (some ⟨some "X", 2⟩) 2 := by
  constructor
  · decide
  · decide

/-- Evaluation of the code filter when the error terminates retrying: a
falsy `code` or a code outside the list makes the break condition true. -/
theorem codesBreak_true (cs : List String) (hne : cs.isEmpty = false) (e : Err)
    (hbad : codeFalsy e.code = true ∨ cs.contains (e.code.getD "") = false) :
    (!cs.isEmpty && (codeFalsy e.code || !(cs.contains (e.code.getD "")))) = true := by
  rw [hne]
  rcases hbad with h | h
  · simp [h]
  · cases hc : codeFalsy e.code
    · simp only [hc, Bool.false_or, Bool.not_eq_true', Bool.and_eq_true,
        Bool.not_eq_false']
      exact ⟨by simp [hne], h⟩
    · simp [hc]

/-- Evaluation of the code filter when the error has a truthy listed code:
the break condition is false and the loop retries. -/
theorem codesBreak_false (cs : List String) (e : Err)
    (hc : codeFalsy e.code = false) (hin : cs.contains (e.code.getD "") = true) :
    (!cs.isEmpty && (codeFalsy e.code || !(cs.contains (e.code.getD "")))) = false := by
  rw [hc, hin]
  simp

/-- With a non-empty allow-list, attempts failing with truthy listed codes
keep the loop going, and the first attempt whose error has a falsy or
non-listed code breaks the loop at once: the loop reports that attempt
count, that error as cause, and one invocation per attempt made. -/
theorem retryLoop_codes_stop {α : Type} (op : Nat → AttemptOutcome α)
    (cs : List String) (hne : cs.isEmpty = false) (m k : Nat)
    (e : Nat → Err) (ebad : Err)
    (hlisted : ∀ i, 1 ≤ i → i < k → op i = .fail (e i)
      ∧ codeFalsy (e i).code = false ∧ cs.contains ((e i).code.getD "") = true)
    (hbadop : op k = .fail ebad)
    (hbadcode : codeFalsy ebad.code = true ∨ cs.contains (ebad.code.getD "") = false)
    (hk : k ≤ m) :
    ∀ remaining attempt last calls,
      remaining = m + 1 - attempt → 1 ≤ attempt → attempt ≤ k →
      retryLoop op (some cs) (fun _ _ => false) m remaining attempt last calls
        = .failed k (some ebad) (calls + (k + 1 - attempt)) := by
  intro remaining
  induction remaining with
  | zero =>
    intro attempt last calls hrem h1 h2
    omega
  | succ r ih =>
    intro attempt last calls hrem h1 h2
    by_cases hend : attempt = k
    · subst hend
      unfold retryLoop
      rw [hbadop]
      simp only [codesBreak_true cs hne ebad hbadcode, Bool.true_or, if_pos]
      have h3 : min attempt m = attempt := by omega
      have h4 : attempt + 1 - attempt = 1 := by omega
      rw [h3, h4]
    · have hlt : attempt < k := by omega
      obtain ⟨hopi, hcf, hin⟩ := hlisted attempt h1 hlt
      unfold retryLoop
      rw [hopi]
      simp only [codesBreak_false cs (e attempt) hcf hin, Bool.or_false,
        Bool.false_or, Bool.false_eq_true, not_false_eq_true, reduceIte]
      rw [ih (attempt + 1) (some (e attempt)) (calls + 1) (by omega) (by omega) (by omega)]
      have harith : calls + 1 + (k + 1 - (attempt + 1)) = calls + (k + 1 - attempt) := by
        omega
      rw [harith]

/-- C8 (amended): whenever a NON-EMPTY `retryableCodes` allow-list is
supplied, the first failed attempt whose error lacks a (truthy) `code`
field or whose code is not in the list — at whatever attempt position `k`
within the budget it occurs, after `k - 1` failures with truthy listed
codes were retried — terminates retrying immediately: the operation is
invoked exactly `k` times regardless of the remaining `maxRetry` budget,
and `withRetry` rejects with that error as cause.  (An empty supplied list
disables the filter, see `withRetry_emptyCodes_counterexample`.) -/
theorem withRetry_retryableCodes_stop {α : Type} (op : Nat → AttemptOutcome α)
    (cs : List String) (hcs : cs ≠ []) (k : Nat) (e : Nat → Err) (ebad : Err)
    (hlisted : ∀ i, 1 ≤ i → i < k → op i = .fail (e i)
      ∧ codeFalsy (e i).code = false ∧ cs.contains ((e i).code.getD "") = true)
    (hbadop : op k = .fail ebad)
    (hbadcode : codeFalsy ebad.code = true ∨ cs.contains (ebad.code.getD "") = false)
    (maxRetry : Int) (hk1 : 1 ≤ k) (hk : k ≤ effectiveMaxRetry maxRetry) :
    withRetry op maxRetry (fun _ _ => false) (some cs)
      = .failed k (some ebad) k := by
  have hne : cs.isEmpty = false := by
    cases cs with
    | nil => exact absurd rfl hcs
    | cons a l => rfl
  unfold withRetry
  have h := retryLoop_codes_stop op cs hne (effectiveMaxRetry maxRetry) k e ebad
    hlisted hbadop hbadcode hk
    (effectiveMaxRetry maxRetry) 1 none 0 (by omega) (le_refl 1) hk1
  rw [h]
  have harith : 0 + (k + 1 - 1) = k := by omega
  rw [harith]

/-- Witness for `withRetry_retryableCodes_stop`: attempts 1 and 2 fail with
the listed code `A` and are retried; attempt 3 fails with the non-listed
code `X` and stops retrying at once despite budget 5 — three invocations,
cause the third error. -/
theorem withRetry_retryableCodes_stop_witness :
    withRetry (α := Nat)
        (fun i => if i ≤ 2 then .fail ⟨some "A", i⟩ else .fail ⟨some "X", i⟩) 5
        (fun _ _ => false) (some ["A"])
      = .failed 3 (some ⟨some "X", 3⟩) 3 := by
  exact withRetry_retryableCodes_stop (α := Nat)
    (fun i => if i ≤ 2 then .fail ⟨some "A", i⟩ else .fail ⟨some "X", i⟩)
    ["A"] (by decide) 3 (fun i => ⟨some "A", i⟩) ⟨some "X", 3⟩
    (fun i h1 h2 => ⟨by simp [show i ≤ 2 by omega], by simp [codeFalsy], by simp⟩)
    (by simp) (by decide) 5 (by decide) (by decide)

/-! ## AsyncJobQueue (src/packages/utils/src/asyncJobQueue.ts)

A job is modelled by the list of jobs it enqueues, in order, while it runs
and before it settles; all other effects of a job are invisible to the
queue (its failure is swallowed by the catch handler in `schedule`).  The queue state
carries `pending` (`this.queue`), `running` (the in-flight jobs, each with
the enqueues it has not performed yet) and `waiters` (unresolved `drain()`
promises).  Each cooperative-scheduling atomic segment of the source is one
`QueueAction`; a scheduler is a list of actions. -/

/-- A job, described by the jobs it enqueues while running. -/
inductive Job where
  | mk (spawns : List Job)

/-- The enqueues a job performs during its run. -/
def Job.spawns : Job → List Job
  | .mk s => s

/-- State of an `AsyncJobQueue`. -/
structure QueueState where
  pending : List Job
  running : List (List Job)
  waiters : Nat

/-- Loop `while (running < concurrency && queue.length > 0)` of `schedule()`: move the
head of the queue into the running set.  Starting `job()` is modelled by
moving the remaining spawn list of the job into `running`. -/
def scheduleAux (concurrency : Nat) : List Job → List (List Job) → List Job × List (List Job)
  | [], running => ([], running)
  | j :: rest, running =>
    if running.length < concurrency then scheduleAux concurrency rest (running ++ [j.spawns])
    else (j :: rest, running)

/-- One atomic segment of queue activity. -/
inductive QueueAction where
  | enqueue (j : Job)
  | spawn (i : Nat)
  | finish (i : Nat)
  | drain

/-- One step of the queue.  Returns the new state and whether this step
resolved the pending `drain()` waiters (`waiters.forEach(f => f()); waiters
= []`).
* `enqueue j` — external `enqueue(job)`: push then `schedule()`.
* `spawn i` — running job `i` performs its next enqueue: push + `schedule()`.
* `finish i` — running job `i` (all its enqueues done) settles: the
  `.finally` decrements `running`, runs `schedule()` and, if nothing is left
  anywhere, notifies all `drain()` callers at once.
* `drain` — a `drain()` call: returns at once if the queue is idle,
  otherwise registers a waiter.
Actions whose guard does not hold (no such running job, or a `finish` on a
job that still has enqueues to do) change nothing. -/
def queueStep (concurrency : Nat) (a : QueueAction) (s : QueueState) : QueueState × Bool :=
  match a with
  | .enqueue j =>
    let pr := scheduleAux concurrency (s.pending ++ [j]) s.running
    (⟨pr.1, pr.2, s.waiters⟩, false)
  | .spawn i =>
    match s.running[i]? with
    | some (j :: rest) =>
      let pr := scheduleAux concurrency (s.pending ++ [j]) (s.running.set i rest)
      (⟨pr.1, pr.2, s.waiters⟩, false)
    | _ => (s, false)
  | .finish i =>
    match s.running[i]? with
    | some [] =>
      let pr := scheduleAux concurrency s.pending (s.running.eraseIdx i)
      if pr.2.length = 0 && pr.1.length = 0 then (⟨pr.1, pr.2, 0⟩, true)
      else (⟨pr.1, pr.2, s.waiters⟩, false)
    | _ => (s, false)
  | .drain =>
    if s.running.length = 0 && s.pending.length = 0 then (s, false)
    else (⟨s.pending, s.running, s.waiters + 1⟩, false)

/-- Lemma: `schedule()` never raises the number of running jobs beyond the
concurrency ceiling. -/
theorem scheduleAux_bound (concurrency : Nat) (p : List Job) (r : List (List Job))
    (h : r.length ≤ concurrency) :
    (scheduleAux concurrency p r).2.length ≤ concurrency := by
  induction p generalizing r with
  | nil => exact h
  | cons j rest ih =>
    unfold scheduleAux
    by_cases hlt : r.length < concurrency
    · rw [if_pos hlt]
      exact ih (r ++ [j.spawns]) (by simp; omega)
    · rw [if_neg hlt]
      exact h

/-- C6: with the ceiling `Math.max(1, concurrency)` set by the constructor, (1) no
step ever makes more than `max 1 concurrency` jobs run at once; (2) the
`drain()` waiters are resolved only by a step that leaves the queue with no
pending and no running job — so a `drain()` completes only once every job,
including every job enqueued by a still-running job before it finished, has
settled (a spawned job sits in `pending`/`running` until its own `finish`) —
and when they are resolved, all of them are resolved together; (3) no other
step resolves any waiter: a step that does not flush leaves `waiters` intact
except for a new `drain()` registration. -/
theorem asyncJobQueue_drain_concurrency (concurrency : Nat) (a : QueueAction)
    (s : QueueState) (hinv : s.running.length ≤ max 1 concurrency) :
    ((queueStep (max 1 concurrency) a s).1.running.length ≤ max 1 concurrency)
    ∧ ((queueStep (max 1 concurrency) a s).2 = true →
        (queueStep (max 1 concurrency) a s).1.pending = []
        ∧ (queueStep (max 1 concurrency) a s).1.running = []
        ∧ (queueStep (max 1 concurrency) a s).1.waiters = 0)
    ∧ ((queueStep (max 1 concurrency) a s).2 = false →
        (queueStep (max 1 concurrency) a s).1.waiters = s.waiters
        ∨ (queueStep (max 1 concurrency) a s).1.waiters = s.waiters + 1) := by
  match a with
  | .enqueue j =>
    refine ⟨?_, ?_, ?_⟩
    · exact scheduleAux_bound _ _ _ hinv
    · intro h
      simp [queueStep] at h
    · intro _
      left
      rfl
  | .spawn i =>
    match hr : s.running[i]? with
    | some (j :: rest) =>
      refine ⟨?_, ?_, ?_⟩
      · simp only [queueStep, hr]
        exact scheduleAux_bound _ _ _ (by simp [hinv])
      · intro h
        simp [queueStep, hr] at h
      · intro _
        simp [queueStep, hr]
    | some [] =>
      refine ⟨?_, ?_, ?_⟩
      · simp only [queueStep, hr]
        exact hinv
      · intro h
        simp [queueStep, hr] at h
      · intro _
        simp [queueStep, hr]
    | none =>
      refine ⟨?_, ?_, ?_⟩
      · simp only [queueStep, hr]
        exact hinv
      · intro h
        simp [queueStep, hr] at h
      · intro _
        simp [queueStep, hr]
  | .finish i =>
    match hr : s.running[i]? with
    | some [] =>
      have hb : (s.running.eraseIdx i).length ≤ max 1 concurrency := by
        have := List.length_eraseIdx_le s.running i
        omega
      by_cases hidle : ((scheduleAux (max 1 concurrency) s.pending
          (s.running.eraseIdx i)).2.length = 0
          && (scheduleAux (max 1 concurrency) s.pending
          (s.running.eraseIdx i)).1.length = 0) = true
      · refine ⟨?_, ?_, ?_⟩
        · simp only [queueStep, hr, hidle, if_pos]
          exact scheduleAux_bound _ _ _ hb
        · intro _
          simp only [Bool.and_eq_true, decide_eq_true_eq] at hidle
          simp [queueStep, hr, List.length_eq_zero.mp hidle.1,
            List.length_eq_zero.mp hidle.2]
        · intro h
          simp [queueStep, hr, hidle] at h
      · refine ⟨?_, ?_, ?_⟩
        · simp only [queueStep, hr, hidle, if_neg]
          exact scheduleAux_bound _ _ _ hb
        · intro h
          simp [queueStep, hr, hidle] at h
        · intro _
          simp [queueStep, hr, hidle]
    | some (j :: rest) =>
      refine ⟨?_, ?_, ?_⟩
      · simp only [queueStep, hr]
        exact hinv
      · intro h
        simp [queueStep, hr] at h
      · intro _
        simp [queueStep, hr]
    | none =>
      refine ⟨?_, ?_, ?_⟩
      · simp only [queueStep, hr]
        exact hinv
      · intro h
        simp [queueStep, hr] at h
      · intro _
        simp [queueStep, hr]
  | .drain =>
    by_cases hidle : (s.running.length = 0 && s.pending.length = 0) = true
    · refine ⟨?_, ?_, ?_⟩
      · simp only [queueStep, hidle, if_pos]
        exact hinv
      · intro h
        simp [queueStep, hidle] at h
      · intro _
        simp [queueStep, hidle]
    · refine ⟨?_, ?_, ?_⟩
      · simp only [queueStep, hidle, if_neg]
        exact hinv
      · intro h
        simp [queueStep, hidle] at h
      · intro _
        simp [queueStep, hidle]

/-- Witness for `asyncJobQueue_drain_concurrency`: the last running job of a
queue with concurrency 2 and three pending `drain()` waiters settles; all
three waiters are resolved together in the all-settled state. -/
theorem asyncJobQueue_drain_concurrency_witness :
    ((queueStep (max 1 2) (.finish 0) ⟨[], [[]], 3⟩).1.running.length ≤ max 1 2)
    ∧ ((queueStep (max 1 2) (.finish 0) ⟨[], [[]], 3⟩).2 = true →
        (queueStep (max 1 2) (.finish 0) ⟨[], [[]], 3⟩).1.pending = []
        ∧ (queueStep (max 1 2) (.finish 0) ⟨[], [[]], 3⟩).1.running = []
        ∧ (queueStep (max 1 2) (.finish 0) ⟨[], [[]], 3⟩).1.waiters = 0)
    ∧ (queueStep (max 1 2) (.finish 0) ⟨[], [[]], 3⟩).2 = true := by
  have h := asyncJobQueue_drain_concurrency 2 (.finish 0) ⟨[], [[]], 3⟩
    (by simp)
  exact ⟨h.1, h.2.1, rfl⟩

/-! ## Transport accounting (transports/transport.ts)

`Transport` keeps `logRequests` (incremented first, unconditionally, by
every `log()`/`raw()` call) and `logProcessed` (incremented exactly once per
accepted request, by the catch-blocks of `log`/`raw` on a synchronous
failure, or by the sink once processing of the entry completes).  For a
non-offloaded transport (`worker = undefined`) we model the sink hooks by
their contract (§4.3–4.5 of the spec, implemented by the console, file and
HTTP sinks): `doLog` either throws synchronously or accepts the entry as
pending sink work, and every pending entry increments `logProcessed`
exactly once by the time `doFlushAndWait` (which waits for the sink to finish its
outstanding I/O) resolves. -/

/-- Counters and lifecycle flags of a `Transport`; `pending` counts entries
accepted by `doLog` whose processing has not completed yet (buffered
entries plus jobs in the internal queue). -/
structure TransportState where
  isClosing : Bool
  isClosed : Bool
  logRequests : Nat
  logProcessed : Nat
  pending : Nat
deriving DecidableEq, Repr

/-- A `Transport` is constructed open with both counters at zero. -/
def initialTransport : TransportState :=
  ⟨false, false, 0, 0, 0⟩

/-- Model of `Transport.log` on a non-offloaded transport: increment `logRequests`,
then `checkTransportState()` (throws if closed or closing), then `doLog`.
A synchronous throw from either is caught; the catch increments
`logProcessed`, reports through `handleError` and returns — `log` never
throws to the caller.  `sinkThrows` says whether `doLog` throws
synchronously on this entry. -/
def logStep (sinkThrows : Bool) (s : TransportState) : TransportState :=
  let s1 := { s with logRequests := s.logRequests + 1 }
  if s1.isClosed || s1.isClosing then
    { s1 with logProcessed := s1.logProcessed + 1 }
  else if sinkThrows then
    { s1 with logProcessed := s1.logProcessed + 1 }
  else
    { s1 with pending := s1.pending + 1 }

/-- Whether a `raw`/`log` call returned normally or threw to its caller. -/
inductive CallOutcome where
  | threw
  | returned
deriving DecidableEq, Repr

/-- Model of `Transport.raw`.  The guard `if (!this.worker)` throws a
`Not supported in main thread` error before any counter is touched, and the
throw escapes to the caller.  With a worker attached: increment
`logRequests`, check state and post to the worker; a synchronous throw
(state check, or `postMessage` itself, modelled by `postThrows`) is caught,
increments `logProcessed` and reports without rethrowing. -/
def rawStep (hasWorker : Bool) (postThrows : Bool) (s : TransportState) :
    CallOutcome × TransportState :=
  if !hasWorker then (.threw, s)
  else
    let s1 := { s with logRequests := s.logRequests + 1 }
    if s1.isClosed || s1.isClosing then
      (.returned, { s1 with logProcessed := s1.logProcessed + 1 })
    else if postThrows then
      (.returned, { s1 with logProcessed := s1.logProcessed + 1 })
    else
      (.returned, s1)

/-- The sink-hook contract of `doFlushAndWait`: the sink flushes its buffer
and waits for its outstanding I/O, so every pending entry has incremented
`logProcessed` exactly once when it resolves (file sink: per-batch
`finally` in `sendBody`; HTTP sink: per-chunk `finally`; console sink:
queue drain). -/
def doFlushAndWait (s : TransportState) : TransportState :=
  { s with logProcessed := s.logProcessed + s.pending, pending := 0 }

/-- Model of `Transport.flushAndWait` on a non-offloaded transport: snapshot
`logRequests`, then `waitUntil(async () => { await doFlushAndWait(); return
logProcessed >= snapshot })`.  Under the hook contract the first poll
already reaches the snapshot, so one pass models the loop.  Returns the
state and whether the snapshot was reached. -/
def flushAndWait (s : TransportState) : TransportState × Bool :=
  let snapshot := s.logRequests
  let s1 := doFlushAndWait s
  (s1, decide (snapshot ≤ s1.logProcessed))

/-- Model of `Transport.close` on a non-offloaded transport: set `isClosing` first
(so concurrent `log()` calls fail fast), `flushAndWait`, `doClose` (stream
teardown, no counter effect), then `assertStats` — which reports (never
throws) a diagnostic error iff `logProcessed != logRequests` or the
internal queue is non-empty — and finally set `isClosed`.  Returns the
final state and whether `assertStats` reported the diagnostic error. -/
def close (s : TransportState) : TransportState × Bool :=
  let s1 := { s with isClosing := true }
  let s2 := (flushAndWait s1).1
  let statsError := !(s2.logProcessed == s2.logRequests && s2.pending == 0)
  ({ s2 with isClosed := true }, statsError)

/-- A finite sequence of `log()` calls, each tagged with whether its
`doLog` throws synchronously. -/
def runLogs (ops : List Bool) (s : TransportState) : TransportState :=
  ops.foldl (fun t b => logStep b t) s

/-- While the transport is open, every `log()` keeps the accounting
invariant `logRequests = logProcessed + pending` and does not change the
lifecycle flags. -/
theorem runLogs_invariant (ops : List Bool) (s : TransportState)
    (hc : s.isClosing = false) (hd : s.isClosed = false)
    (hbal : s.logRequests = s.logProcessed + s.pending) :
    (runLogs ops s).isClosing = false
    ∧ (runLogs ops s).isClosed = false
    ∧ (runLogs ops s).logRequests = (runLogs ops s).logProcessed + (runLogs ops s).pending := by
  induction ops generalizing s with
  | nil => exact ⟨hc, hd, hbal⟩
  | cons b rest ih =>
    have hstep : (logStep b s).isClosing = false
        ∧ (logStep b s).isClosed = false
        ∧ (logStep b s).logRequests = (logStep b s).logProcessed + (logStep b s).pending := by
      unfold logStep
      rw [hc, hd]
      cases b <;> simp <;> omega
    exact ih (logStep b s) hstep.1 hstep.2.1 hstep.2.2

/-- C1: for any finite sequence of `log()` calls on a fresh non-offloaded
transport followed by one `close()`, `logProcessed = logRequests` at the
moment `close()` completes, and the close-time `assertStats` check reports
no diagnostic error. -/
theorem transport_close_stats (ops : List Bool) :
    (close (runLogs ops initialTransport)).1.logProcessed
      = (close (runLogs ops initialTransport)).1.logRequests
    ∧ (close (runLogs ops initialTransport)).2 = false := by
  have h := runLogs_invariant ops initialTransport rfl rfl rfl
  obtain ⟨-, -, hbal⟩ := h
  constructor
  · simp [close, flushAndWait, doFlushAndWait]
    omega
  · simp [close, flushAndWait, doFlushAndWait]
    omega

/-- C10 counterexample: `raw(data)` on a closed transport whose worker has
been terminated by `close()` (closeWorker sets `this.worker = undefined`).
The claim says such a synchronously failing call increments `logRequests`
and `logProcessed` by one each and returns without throwing; instead the
`if (!this.worker) throw …` guard instead throws to the caller before
touching either counter. -/
theorem raw_closed_no_worker_counterexample :
    ¬ ((rawStep false false ⟨true, true, 5, 5, 0⟩).1 = .returned
       ∧ (rawStep false false ⟨true, true, 5, 5, 0⟩).2.logRequests = 6
       ∧ (rawStep false false ⟨true, true, 5, 5, 0⟩).2.logProcessed = 6)
    ∧ rawStep false false ⟨true, true, 5, 5, 0⟩
        = (.threw, ⟨true, true, 5, 5, 0⟩) := by
  constructor
  · decide
  · decide

/-- C10 (amended): every `log()` call that fails synchronously — a `doLog`
throw on an open transport, or the state check on a closing/closed one —
increments `logRequests` and `logProcessed` by one each and returns without
throwing; every `raw()` call on a transport WITH a worker that fails
synchronously — a `postMessage` throw on an open transport, or the state
check on a closing/closed one — does the same; but a `raw()` call without a
worker attached (always on the main thread, and in particular after
`close()` has terminated the worker) throws synchronously to the caller and
leaves the state, both counters included, untouched. -/
theorem log_raw_sync_failure_accounting (s : TransportState) (b : Bool) :
    ((logStep true s).logRequests = s.logRequests + 1
      ∧ (logStep true s).logProcessed = s.logProcessed + 1)
    ∧ (s.isClosing = true ∨ s.isClosed = true →
        (logStep b s).logRequests = s.logRequests + 1
        ∧ (logStep b s).logProcessed = s.logProcessed + 1
        ∧ (logStep b s).pending = s.pending)
    ∧ ((rawStep true true s).1 = .returned
      ∧ (rawStep true true s).2.logRequests = s.logRequests + 1
      ∧ (rawStep true true s).2.logProcessed = s.logProcessed + 1)
    ∧ (s.isClosing = true ∨ s.isClosed = true →
        (rawStep true b s).1 = .returned
        ∧ (rawStep true b s).2.logRequests = s.logRequests + 1
        ∧ (rawStep true b s).2.logProcessed = s.logProcessed + 1)
    ∧ rawStep false b s = (.threw, s) := by
  refine ⟨?_, ?_, ?_, ?_, ?_⟩
  · unfold logStep
    cases hb : (s.isClosed || s.isClosing) <;> simp [hb]
  · intro h
    have hcc : (s.isClosed || s.isClosing) = true := by
      rcases h with h | h <;> simp [h]
    unfold logStep
    simp [hcc]
  · unfold rawStep
    cases hb : (s.isClosed || s.isClosing) <;> simp [hb]
  · intro h
    have hcc : (s.isClosed || s.isClosing) = true := by
      rcases h with h | h <;> simp [h]
    unfold rawStep
    simp [hcc]
  · unfold rawStep
    simp

/-- Witness for `log_raw_sync_failure_accounting`, exercised both at an
open transport (sink/postMessage throws; raw without a worker throws with
the state untouched) and at a closed one (state-check path). -/
theorem log_raw_sync_failure_accounting_witness :
    ((logStep true ⟨false, false, 3, 1, 2⟩).logRequests = 4
      ∧ (logStep true ⟨false, false, 3, 1, 2⟩).logProcessed = 2)
    ∧ (rawStep true true ⟨false, false, 3, 1, 2⟩).1 = .returned
    ∧ rawStep false true ⟨false, false, 3, 1, 2⟩ = (.threw, ⟨false, false, 3, 1, 2⟩)
    ∧ ((logStep false ⟨false, true, 7, 7, 0⟩).logRequests = 8
      ∧ (logStep false ⟨false, true, 7, 7, 0⟩).logProcessed = 8)
    ∧ (rawStep true false ⟨false, true, 7, 7, 0⟩).1 = .returned
    ∧ rawStep false false ⟨false, true, 7, 7, 0⟩ = (.threw, ⟨false, true, 7, 7, 0⟩) := by
  have hopen := log_raw_sync_failure_accounting ⟨false, false, 3, 1, 2⟩ true
  have hclosed := log_raw_sync_failure_accounting ⟨false, true, 7, 7, 0⟩ false
  refine ⟨⟨hopen.1.1, hopen.1.2⟩, hopen.2.2.1.1, hopen.2.2.2.2, ?_, ?_, hclosed.2.2.2.2⟩
  · have h := hclosed.2.1 (Or.inr rfl)
    exact ⟨h.1, h.2.1⟩
  · exact (hclosed.2.2.2.1 (Or.inr rfl)).1

/-! ## FileRotator.rotate — try/finally (transports/fileRotator.ts 82–107)

`rotate(closeStream, openStream, onError)` sets `isRotating`, runs
`closeStream()` and `doRotate(onError)` inside `try`, and in `finally` runs
`openStream()`, clears `isRotating` and resolves `rotationPromise`.
`doRotate` catches a rename failure (reports it, returns `false`) and
catches compression and retention failures (reports them, continues), so it
never throws as long as `onError` does not.  We trace an execution over
which steps fail; `openStream` and `onError` are taken as non-throwing
(they are outside the failure set of the claim — if `openStream` itself
threw inside `finally`, the statements after it would not run). -/

/-- Which steps of a rotation fail in a traced execution.  Compression and
retention are taken as configured on (`compress` truthy with a non-zero
`maxFiles`, and `maxFiles != null`). -/
structure RotateFailures where
  closeThrows : Bool
  renameFails : Bool
  compressFails : Bool
  retentionFails : Bool
deriving DecidableEq, Repr

/-- Observable trace state of one `rotate` call. -/
structure RotSt where
  isRotating : Bool
  closeCalls : Nat
  openCalls : Nat
  errorsReported : Nat
  renamesDone : Nat
deriving DecidableEq, Repr

/-- Model of `doRotate(onError)`: rename via `withRetry` (on failure report and
return `false`); then compression and retention, each failure reported by
`onError` and swallowed; returns `true` when the rename succeeded. -/
def doRotate (f : RotateFailures) (s : RotSt) : RotSt × Bool :=
  if f.renameFails then
    ({ s with errorsReported := s.errorsReported + 1 }, false)
  else
    let s1 := { s with renamesDone := s.renamesDone + 1 }
    let s2 := if f.compressFails
      then { s1 with errorsReported := s1.errorsReported + 1 } else s1
    let s3 := if f.retentionFails
      then { s2 with errorsReported := s2.errorsReported + 1 } else s2
    (s3, true)

/-- Model of `FileRotator.rotate` when no rotation is in flight: set `isRotating`,
`try { await closeStream(); return await doRotate(onError) } finally {
openStream(); isRotating = false; … resolve() }`.  The second component is
`some b` when the call resolves with `b` and `none` when the `try` threw
and the call rejects (after the `finally` ran). -/
def rotateOnce (f : RotateFailures) (s : RotSt) : RotSt × Option Bool :=
  let s1 := { s with isRotating := true }
  let tr : RotSt × Option Bool :=
    if f.closeThrows then
      ({ s1 with closeCalls := s1.closeCalls + 1 }, none)
    else
      let s2 := { s1 with closeCalls := s1.closeCalls + 1 }
      let dr := doRotate f s2
      (dr.1, some dr.2)
  ({ tr.1 with openCalls := tr.1.openCalls + 1, isRotating := false }, tr.2)

/-- C9: whichever of `closeStream`, the rename, the compression or the
retention pruning fails, a `rotate` call that actually starts a rotation
invokes `openStream` exactly once and has `isRotating` back at `false` by
the time it settles — the rotator is never left flagged as rotating or
without a reopened sink. -/
theorem fileRotator_rotate_finally (f : RotateFailures) (s : RotSt) :
    (rotateOnce f s).1.openCalls = s.openCalls + 1
    ∧ (rotateOnce f s).1.isRotating = false := by
  obtain ⟨c, r, cp, rt⟩ := f
  cases c <;> cases r <;> cases cp <;> cases rt <;>
    simp [rotateOnce, doRotate]

/-! ## FileRotator.rotate — mutual exclusion (transports/fileRotator.ts)

Two `rotate()` calls on the same instance.  JavaScript runs each
synchronous segment atomically; the segments of `rotate` are (a) entry up
to the first `await` — the `isRotating` check, and either registering on
`rotationPromise` or setting the flag and creating the promise — (b) the
rotation body (whose intermediate suspensions all keep `isRotating = true`,
`resolved = false`, so they are collapsed into the completing step) and (c)
resumption of a waiting caller once the promise resolved.  A scheduler is
an arbitrary list of moves; moves whose caller is not in the right phase do
nothing. -/

/-- Phase of one `rotate()` caller. -/
inductive RotPhase where
  | notStarted
  | inBody
  | waiting
  | doneTrue
  | doneFalse
deriving DecidableEq, Repr

/-- The two callers. -/
inductive CallerId where
  | a
  | b
deriving DecidableEq, Repr

/-- Joint state of the rotator and the two `rotate()` calls.
`sawInflight` records that some call observed `isRotating = true` at entry
(the overlap condition of the claim). -/
structure TwoRotCalls where
  pa : RotPhase
  pb : RotPhase
  isRotating : Bool
  resolved : Bool
  rotations : Nat
  sawInflight : Bool
deriving DecidableEq, Repr

def phaseOf : CallerId → TwoRotCalls → RotPhase
  | .a, s => s.pa
  | .b, s => s.pb

def setPhase : CallerId → RotPhase → TwoRotCalls → TwoRotCalls
  | .a, p, s => { s with pa := p }
  | .b, p, s => { s with pb := p }

/-- A scheduler move: start a call, complete an in-flight rotation body
(counting one physical rotation), or resume a caller that awaited the
in-flight `rotationPromise`. -/
inductive RotMove where
  | start (c : CallerId)
  | finish (c : CallerId)
  | resume (c : CallerId)

/-- One step.  `start`: the atomic prefix of `rotate()` — if `isRotating`
the caller will await the promise and return `false`; otherwise it sets
`isRotating`, creates a fresh (unresolved) promise and enters the body.
`finish`: the body completes — performs the physical rotation, and the
`finally` clears `isRotating` and resolves the promise; the call resolves
`true`.  `resume`: a waiting caller resumes after the promise resolved and
returns `false`.  Moves not enabled change nothing. -/
def rotMoveStep (m : RotMove) (s : TwoRotCalls) : TwoRotCalls :=
  match m with
  | .start c =>
    if phaseOf c s = .notStarted then
      if s.isRotating then
        { setPhase c .waiting s with sawInflight := true }
      else
        { setPhase c .inBody s with isRotating := true, resolved := false }
    else s
  | .finish c =>
    if phaseOf c s = .inBody then
      { setPhase c .doneTrue s with
          isRotating := false
          resolved := true
          rotations := s.rotations + 1 }
    else s
  | .resume c =>
    if phaseOf c s = .waiting ∧ s.resolved = true then
      setPhase c .doneFalse s
    else s

/-- Both calls pending, rotator idle. -/
def initialTwoRotCalls : TwoRotCalls :=
  ⟨.notStarted, .notStarted, false, false, 0, false⟩

/-- Run a scheduler. -/
def runRotMoves (ms : List RotMove) : TwoRotCalls :=
  ms.foldl (fun s m => rotMoveStep m s) initialTwoRotCalls

/-- Inductive invariant of the two-caller system. -/
def RotInv (s : TwoRotCalls) : Prop :=
  (s.isRotating = true ↔ (s.pa = .inBody ∨ s.pb = .inBody))
  ∧ ¬(s.pa = .inBody ∧ s.pb = .inBody)
  ∧ s.rotations = (if s.pa = .doneTrue then 1 else 0) + (if s.pb = .doneTrue then 1 else 0)
  ∧ ((s.pa = .waiting ∨ s.pa = .doneFalse) → (s.pb = .inBody ∨ s.pb = .doneTrue))
  ∧ ((s.pb = .waiting ∨ s.pb = .doneFalse) → (s.pa = .inBody ∨ s.pa = .doneTrue))
  ∧ (s.sawInflight = true → (s.pa = .waiting ∨ s.pa = .doneFalse
      ∨ s.pb = .waiting ∨ s.pb = .doneFalse))
  ∧ (s.resolved = true → s.pa ≠ .inBody ∧ s.pb ≠ .inBody)

theorem rotInv_initial : RotInv initialTwoRotCalls := by
  unfold RotInv initialTwoRotCalls
  refine ⟨?_, ?_, ?_, ?_, ?_, ?_, ?_⟩ <;> simp

theorem rotInv_step (m : RotMove) (s : TwoRotCalls) (h : RotInv s) :
    RotInv (rotMoveStep m s) := by
  obtain ⟨h1, h2, h3, h4, h5, h6, h7⟩ := h
  obtain ⟨pa, pb, fl, rv, rot, si⟩ := s
  match m with
  | .start c | .finish c | .resume c =>
    cases c <;>
      simp only [rotMoveStep, phaseOf, setPhase] at * <;>
      split <;>
      (try split) <;>
      (unfold RotInv
       simp_all <;> try omega)

theorem rotInv_foldl (ms : List RotMove) (s : TwoRotCalls) (h : RotInv s) :
    RotInv (ms.foldl (fun t m => rotMoveStep m t) s) := by
  induction ms generalizing s with
  | nil => exact h
  | cons m rest ih => exact ih (rotMoveStep m s) (rotInv_step m s h)

theorem rotInv_run (ms : List RotMove) : RotInv (runRotMoves ms) :=
  rotInv_foldl ms initialTwoRotCalls rotInv_initial

/-- C5: under every scheduling of two overlapping `rotate()` calls — both
calls have settled and one of them observed `isRotating = true` at entry —
exactly one physical rotation was performed; the call that arrived while a
rotation was in flight performed none of the rotation steps, awaited the
in-flight rotation (it can only resume after the promise resolved, which
happens when the finally block of the body has run) and resolved with `false`, while
the other call resolved with `true`. -/
theorem fileRotator_concurrent_rotate (ms : List RotMove)
    (ha : (runRotMoves ms).pa = .doneTrue ∨ (runRotMoves ms).pa = .doneFalse)
    (hb : (runRotMoves ms).pb = .doneTrue ∨ (runRotMoves ms).pb = .doneFalse)
    (hover : (runRotMoves ms).sawInflight = true) :
    (runRotMoves ms).rotations = 1
    ∧ (((runRotMoves ms).pa = .doneTrue ∧ (runRotMoves ms).pb = .doneFalse)
      ∨ ((runRotMoves ms).pa = .doneFalse ∧ (runRotMoves ms).pb = .doneTrue)) := by
  obtain ⟨h1, h2, h3, h4, h5, h6, h7⟩ := rotInv_run ms
  have hsome := h6 hover
  rcases ha with ha | ha <;> rcases hb with hb | hb
  · rcases hsome with h | h | h | h <;> simp_all
  · refine ⟨?_, Or.inl ⟨ha, hb⟩⟩
    rw [h3, if_pos ha, if_neg (by simp [hb])]
  · refine ⟨?_, Or.inr ⟨ha, hb⟩⟩
    rw [h3, if_neg (by simp [ha]), if_pos hb]
  · exfalso
    rcases h4 (Or.inr ha) with h | h <;> simp_all

/-- Witness for `fileRotator_concurrent_rotate`: the schedule where call A
starts the rotation, call B arrives while it is in flight, the rotation of A
completes, then B resumes. -/
theorem fileRotator_concurrent_rotate_witness :
    (runRotMoves [.start .a, .start .b, .finish .a, .resume .b]).rotations = 1
    ∧ (((runRotMoves [.start .a, .start .b, .finish .a, .resume .b]).pa = .doneTrue
        ∧ (runRotMoves [.start .a, .start .b, .finish .a, .resume .b]).pb = .doneFalse)
      ∨ ((runRotMoves [.start .a, .start .b, .finish .a, .resume .b]).pa = .doneFalse
        ∧ (runRotMoves [.start .a, .start .b, .finish .a, .resume .b]).pb = .doneTrue)) := by
  exact fileRotator_concurrent_rotate [.start .a, .start .b, .finish .a, .resume .b]
    (by decide) (by decide) (by decide)

/-! ## FileRotator.retention (transports/fileRotator.ts 187–210)

`retention(dir, base, ext, maxFiles)` lists the directory, keeps the
entries matching the rotated-file pattern — the name starts with `base`
followed by a dot, and ends with `ext` or with `ext` followed by a `.gz`
suffix — joins them with the
directory, sorts lexicographically, and unlinks the first
`candidates.length - maxFiles` of them, skipping any whose joined path ends
with the live filename `base + ext`.  File names are `List Char`;
the default lexicographic comparison of `Array.prototype.sort()` is the
lexicographic linear order on `List Char`, and any correct sort of a list
without duplicate names yields the same list, so `List.insertionSort`
stands in for it.  The claim concerns a finite configured `maxFiles`. -/

/-- A file name (or path) as a character list. -/
abbrev FileName := List Char

/-- The rotated-file pattern filter of `retention`. -/
def isRotatedCandidate (base ext : FileName) (f : FileName) : Bool :=
  (base ++ ['.']).isPrefixOf f
    && (ext.isSuffixOf f || (ext ++ ['.', 'g', 'z']).isSuffixOf f)

/-- Path join `join(dir, f)` with the POSIX separator. -/
def joinPath (dir f : FileName) : FileName :=
  dir ++ ['/'] ++ f

/-- The sorted candidate list `files.filter(…).map(f => join(dir, f)).sort()`. -/
def retentionCandidates (dir base ext : FileName) (files : List FileName) : List FileName :=
  List.insertionSort (· ≤ ·) ((files.filter (isRotatedCandidate base ext)).map (joinPath dir))

/-- The paths unlinked by the retention loop: the first
`candidates.length - maxFiles` sorted candidates (none when the difference
is not positive), skipping — `if (candidates[i].endsWith(filename))
continue` — any path ending with the live filename. -/
def retentionDeleted (dir base ext : FileName) (maxFiles : Nat)
    (files : List FileName) : List FileName :=
  let candidates := retentionCandidates dir base ext files
  let excess := candidates.length - maxFiles
  (candidates.take excess).filter (fun c => !((base ++ ext).isSuffixOf c))

/-- The candidate paths still on disk after pruning. -/
def retentionRemaining (dir base ext : FileName) (maxFiles : Nat)
    (files : List FileName) : List FileName :=
  (retentionCandidates dir base ext files).filter
    (fun c => !((retentionDeleted dir base ext maxFiles files).contains c))

theorem isSuffixOf_append_self (x y : FileName) : y.isSuffixOf (x ++ y) = true := by
  rw [List.isSuffixOf_iff_suffix]
  exact List.suffix_append x y

theorem joinPath_injective (dir : FileName) : Function.Injective (joinPath dir) := by
  intro f g h
  unfold joinPath at h
  rw [List.append_assoc, List.append_assoc] at h
  have h2 := List.append_cancel_left h
  exact List.append_cancel_left h2

theorem filter_out_front {α : Type} [BEq α] [LawfulBEq α] (t d : List α)
    (h : (t ++ d).Nodup) :
    (t ++ d).filter (fun c => !(t.contains c)) = d := by
  rw [List.filter_append]
  have hdisj : t.Disjoint d := List.disjoint_of_nodup_append h
  have h1 : t.filter (fun c => !(t.contains c)) = [] := by
    rw [List.filter_eq_nil_iff]
    intro a ha
    simp [ha]
  have h2 : d.filter (fun c => !(t.contains c)) = d := by
    rw [List.filter_eq_self]
    intro a ha
    have : a ∉ t := fun hat => hdisj hat ha
    simp [this]
  rw [h1, h2, List.nil_append]

theorem filter_out_take {α : Type} [BEq α] [LawfulBEq α] (l : List α) (k : Nat)
    (h : l.Nodup) :
    l.filter (fun c => !((l.take k).contains c)) = l.drop k := by
  have key := filter_out_front (l.take k) (l.drop k)
    (by rw [List.take_append_drop]; exact h)
  rw [List.take_append_drop] at key
  exact key

/-- C2: retention pruning with limit `maxFiles`, on a directory listing
without duplicate names that holds at least `maxFiles` matching candidates
none of whose pruned slots carries the live filename (pruning runs right
after the live file was renamed away): (1) no deleted path ends with the
live filename — in particular the live path itself is never deleted, even
when the live name matches the rotated-file pattern; (2) what remains is
exactly the final segment of the sorted candidate list: exactly `maxFiles`
candidates remain, (3) the candidate list is sorted, and (4) every deleted
path precedes (lexicographically — equivalently, chronologically, given the
timestamp format) every remaining one: the newest are kept. -/
theorem fileRotator_retention (dir base ext : FileName) (maxFiles : Nat)
    (files : List FileName) (hnd : files.Nodup)
    (hcount : maxFiles ≤ (retentionCandidates dir base ext files).length)
    (hskip : ∀ c ∈ (retentionCandidates dir base ext files).take
        ((retentionCandidates dir base ext files).length - maxFiles),
        (base ++ ext).isSuffixOf c = false) :
    (∀ c ∈ retentionDeleted dir base ext maxFiles files,
        (base ++ ext).isSuffixOf c = false)
    ∧ joinPath dir (base ++ ext) ∉ retentionDeleted dir base ext maxFiles files
    ∧ retentionRemaining dir base ext maxFiles files
        = (retentionCandidates dir base ext files).drop
            ((retentionCandidates dir base ext files).length - maxFiles)
    ∧ (retentionRemaining dir base ext maxFiles files).length = maxFiles
    ∧ List.Sorted (· ≤ ·) (retentionCandidates dir base ext files)
    ∧ (∀ d ∈ retentionDeleted dir base ext maxFiles files,
        ∀ r ∈ retentionRemaining dir base ext maxFiles files, d ≤ r) := by
  have hdelSuffix : ∀ c ∈ retentionDeleted dir base ext maxFiles files,
      (base ++ ext).isSuffixOf c = false := by
    intro c hc
    have := List.of_mem_filter hc
    simpa using this
  have hlive : joinPath dir (base ++ ext) ∉ retentionDeleted dir base ext maxFiles files := by
    intro hmem
    have hfalse := hdelSuffix _ hmem
    have htrue : (base ++ ext).isSuffixOf (joinPath dir (base ++ ext)) = true := by
      unfold joinPath
      exact isSuffixOf_append_self (dir ++ ['/']) (base ++ ext)
    rw [htrue] at hfalse
    exact Bool.true_eq_false ▸ hfalse
  have hndC : (retentionCandidates dir base ext files).Nodup := by
    unfold retentionCandidates
    exact (List.perm_insertionSort _ _).symm.nodup
      (((hnd.filter _)).map (joinPath_injective dir))
  have hdel : retentionDeleted dir base ext maxFiles files
      = (retentionCandidates dir base ext files).take
          ((retentionCandidates dir base ext files).length - maxFiles) := by
    unfold retentionDeleted
    rw [List.filter_eq_self.mpr]
    intro c hc
    rw [hskip c hc]
    rfl
  have hrem : retentionRemaining dir base ext maxFiles files
      = (retentionCandidates dir base ext files).drop
          ((retentionCandidates dir base ext files).length - maxFiles) := by
    unfold retentionRemaining
    rw [hdel]
    exact filter_out_take _ _ hndC
  have hsorted : List.Sorted (· ≤ ·) (retentionCandidates dir base ext files) :=
    List.sorted_insertionSort _ _
  refine ⟨hdelSuffix, hlive, hrem, ?_, hsorted, ?_⟩
  · rw [hrem, List.length_drop]
    omega
  · intro d hd r hr
    rw [hdel] at hd
    rw [hrem] at hr
    have hsp : List.Pairwise (· ≤ ·)
        ((retentionCandidates dir base ext files).take
            ((retentionCandidates dir base ext files).length - maxFiles)
          ++ (retentionCandidates dir base ext files).drop
            ((retentionCandidates dir base ext files).length - maxFiles)) := by
      rw [List.take_append_drop]
      exact hsorted
    exact (List.pairwise_append.mp hsp).2.2 d hd r hr

/-- Witness for `fileRotator_retention`: directory `d` holding the rotated
files `a.1.l` and `a.2.l` for live file `a.l`, retention limit 1: the older
rotated file is pruned, the newest remains. -/
theorem fileRotator_retention_witness :
    ([['a', '.', '1', '.', 'l'], ['a', '.', '2', '.', 'l']] : List FileName).Nodup
    ∧ (retentionRemaining ['d'] ['a'] ['.', 'l'] 1
        [['a', '.', '1', '.', 'l'], ['a', '.', '2', '.', 'l']]).length = 1 := by
  refine ⟨by decide, ?_⟩
  exact (fileRotator_retention ['d'] ['a'] ['.', 'l'] 1
    [['a', '.', '1', '.', 'l'], ['a', '.', '2', '.', 'l']]
    (by decide) (by decide) (by decide)).2.2.2.1

/-! ## Transport.workerHandshake (transports/transport.ts 347–394)

The initiator posts a command and installs `onMessage`/`onError`/`onExit`
listeners.  `onMessage`: a string starting with the `WORKER_ERROR:` tag is
swallowed (the persistent listener installed by `runAsWorker` has already
forwarded it to the error channel) and waiting continues; a message equal
(`===`) to the expected reply resolves; anything else — including any
non-string message — rejects.  `onError` (execution error in the replica)
and `onExit` (replica terminated before replying) reject.  We model the
stream of listener events reaching the handshake and fold them until the
first one settles the promise. -/

/-- The distinguished error tag prepended by `handleError` inside the
worker (`WORKER_ERROR:` followed by the serialized TransportError). -/
def workerErrorTag : FileName :=
  "WORKER_ERROR:".toList

/-- A listener event observed while the handshake promise is pending. -/
inductive WorkerEvent where
  | strMsg (s : FileName)
  | otherMsg
  | errorEvent
  | exitEvent
deriving DecidableEq, Repr

/-- How the handshake promise stands after a sequence of events. -/
inductive HandshakeOutcome where
  | success
  | failure
  | stillWaiting
deriving DecidableEq, Repr

/-- Fold the event stream through `onMessage`/`onError`/`onExit` until the
promise settles; if no event settles it, the handshake is still pending and
only `withTimeout(handshake, …)` bounds the wait. -/
def runHandshake (expectedReply : FileName) : List WorkerEvent → HandshakeOutcome
  | [] => .stillWaiting
  | .strMsg s :: rest =>
    if workerErrorTag.isPrefixOf s then runHandshake expectedReply rest
    else if s = expectedReply then .success
    else .failure
  | .otherMsg :: _ => .failure
  | .errorEvent :: _ => .failure
  | .exitEvent :: _ => .failure

/-- C7: during a worker handshake whose expected reply does not carry the
error tag (the actual tokens are `drained`, `closed`, `ready`), (1) an
error-tagged message never settles the handshake — the outcome over the
remaining events is unchanged — and (2) a stream of error-tagged messages
alone leaves the initiator waiting (until the timeout); whereas (3) the
literal expected reply succeeds immediately, and (4) any other string
message, (5) any non-string message, (6) an execution error from the
replica or (7) the replica exiting before replying fails the handshake
immediately. -/
theorem workerHandshake_messages (expectedReply : FileName)
    (hne : workerErrorTag.isPrefixOf expectedReply = false) :
    (∀ s rest, workerErrorTag.isPrefixOf s = true →
      runHandshake expectedReply (.strMsg s :: rest) = runHandshake expectedReply rest)
    ∧ (∀ evs, (∀ e ∈ evs, ∃ s, e = WorkerEvent.strMsg s
          ∧ workerErrorTag.isPrefixOf s = true) →
      runHandshake expectedReply evs = .stillWaiting)
    ∧ (∀ rest, runHandshake expectedReply (.strMsg expectedReply :: rest) = .success)
    ∧ (∀ s rest, workerErrorTag.isPrefixOf s = false → s ≠ expectedReply →
      runHandshake expectedReply (.strMsg s :: rest) = .failure)
    ∧ (∀ rest, runHandshake expectedReply (.otherMsg :: rest) = .failure)
    ∧ (∀ rest, runHandshake expectedReply (.errorEvent :: rest) = .failure)
    ∧ (∀ rest, runHandshake expectedReply (.exitEvent :: rest) = .failure) := by
  refine ⟨?_, ?_, ?_, ?_, ?_, ?_, ?_⟩
  · intro s rest htag
    simp [runHandshake, htag]
  · intro evs hall
    induction evs with
    | nil => rfl
    | cons e rest ih =>
      obtain ⟨s, he, htag⟩ := hall e (List.mem_cons_self e rest)
      subst he
      rw [show runHandshake expectedReply (.strMsg s :: rest)
          = runHandshake expectedReply rest by simp [runHandshake, htag]]
      exact ih (fun e hmem => hall e (List.mem_cons_of_mem _ hmem))
  · intro rest
    simp [runHandshake, hne]
  · intro s rest htag hneq
    simp [runHandshake, htag, hneq]
  · intro rest
    rfl
  · intro rest
    rfl
  · intro rest
    rfl

/-- Witness for `workerHandshake_messages`: a `drain` handshake receives an
error-tagged message and then the literal `drained` reply — the error
message is skipped, the reply succeeds. -/
theorem workerHandshake_messages_witness :
    workerErrorTag.isPrefixOf ("drained".toList) = false
    ∧ runHandshake ("drained".toList)
        [.strMsg ("WORKER_ERROR:e".toList), .strMsg ("drained".toList)] = .success := by
  refine ⟨by decide, ?_⟩
  have h := workerHandshake_messages ("drained".toList) (by decide)
  rw [h.1 ("WORKER_ERROR:e".toList) [.strMsg ("drained".toList)] (by decide)]
  exact h.2.2.1 []

/-! ## Worker handshake timeouts (transports/transport.ts 112–123, 393, 455–481)

`workerHandshake` ends with `await withTimeout(handshake,
this.options.worker?.closeTimeout ?? 0)` — the same expression whatever the
command and expected reply, so for the `drain` and `close` handshakes AND
for the `ready` handshake performed by `runAsWorker`.  The merged DEFAULTS
set `worker.closeTimeout = 60000` and `worker.readyTimeout = 30000`;
`readyTimeout` is documented in the source as the timeout (ms) for the
worker ready handshake, default 30000, but is read nowhere. -/

/-- The `worker` option group (timeout fields). -/
structure WorkerOptions where
  closeTimeout : Option Nat
  readyTimeout : Option Nat
deriving DecidableEq, Repr

/-- The `worker` options after `merge(DEFAULTS, options)` with no
user-supplied timeouts. -/
def defaultWorkerOptions : WorkerOptions :=
  { closeTimeout := some 60000, readyTimeout := some 30000 }

/-- Which handshake is being performed. -/
inductive HandshakeKind where
  | ready
  | drain
  | close
deriving DecidableEq, Repr

/-- The timeout (ms) `workerHandshake` passes to `withTimeout`:
`this.options.worker?.closeTimeout ?? 0`.  The handshake kind is a
parameter only to record that it does NOT enter the selection. -/
def workerHandshakeTimeout (worker : Option WorkerOptions) (kind : HandshakeKind) : Nat :=
  let _ := kind
  (worker.bind (·.closeTimeout)).getD 0

/-- C3 (code behaviour at the failing input): every handshake — ready
included — is bounded by the same configurable `worker.closeTimeout`; with
the merged defaults the `ready` handshake of `runAsWorker` is bounded by
60000 ms, not by the documented `worker.readyTimeout` of 30000 ms, which no
code path reads. -/
theorem runAsWorker_ready_timeout_uses_closeTimeout :
    (∀ w k k', workerHandshakeTimeout w k = workerHandshakeTimeout w k')
    ∧ workerHandshakeTimeout (some defaultWorkerOptions) .ready = 60000
    ∧ defaultWorkerOptions.readyTimeout = some 30000
    ∧ workerHandshakeTimeout (some defaultWorkerOptions) .ready ≠ 30000 := by
  refine ⟨?_, rfl, rfl, by decide⟩
  intro w k kp
  rfl
